import Mathlib

/- A shallow embedding of the sharded request-context store of package
 context (file context.go).  A request identity is its address, modelled
 as a natural number.  A Go interface value is modelled as `Option Val`,
 with `none` playing the role of Go nil.  Go maps of maps are
 heap-allocated values: each per-request attribute table lives at a map
 identity in an explicit heap, so that map aliasing, the nil map and the
 copying done by GetAll and GetAllOk behave exactly as in the source.
 The per-shard mutexes are not modelled: every API call is one atomic
 step of the state machine, which is what the locks achieve in the
 source. -/

namespace Context

/-- A key stored in an attribute table (Go: a comparable interface value). -/
abbrev Key := Nat

/-- A non-nil payload carried by an interface value. -/
abbrev Val := Nat

/-- A Go interface value: nil (`none`) or a payload. -/
abbrev W := Option Val

/-- A request identity: the address of the request object. -/
abbrev Req := Nat

/-- Contents of one attribute table: a finite map from keys to interface
 values; `none` means the key is absent from the map. -/
abbrev AttrTable := Key → Option W

/-- go: const numberOfBags = 128. -/
def numberOfBags : Nat := 128

/-- One shard.  go: type databag struct.  `data` maps a request to the heap
 identity of its attribute table (`none`: no entry, the looked-up map is
 nil), `datat` maps it to its creation timestamp. -/
@[ext]
structure databag where
  data  : Req → Option Nat
  datat : Req → Option Int

/-- The heap of allocated Go maps: `next` is the next fresh map identity,
 `tbl` gives the contents stored at each identity. -/
@[ext]
structure Heap where
  next : Nat
  tbl  : Nat → AttrTable

/-- The whole store: the global array `bags` (indexed by shard number)
 together with the heap of allocated attribute tables. -/
@[ext]
structure State where
  bags : Nat → databag
  heap : Heap

/-- The table with no entries (the contents of a freshly made Go map). -/
def emptyTable : AttrTable := fun _ => none

/-- go: func init() — every bag starts with empty `data` and `datat`
 tables, and no map has been allocated yet. -/
def initState : State where
  bags := fun _ => { data := fun _ => none, datat := fun _ => none }
  heap := { next := 0, tbl := fun _ => emptyTable }

/-- go: func requestBag — the shard index for request r: the address of
 the request modulo numberOfBags. -/
def requestBag (r : Req) : Nat := r % numberOfBags

/-- go: func Set — stores val under key for request r; if the request has
 no table yet, a fresh one is made and the current time (`now`, standing
 for time.Now().Unix()) is recorded in `datat`. -/
def Set (s : State) (r : Req) (k : Key) (v : W) (now : Int) : State :=
  match (s.bags (requestBag r)).data r with
  | none =>
    { bags := fun j => if j = requestBag r then
        { data := fun x => if x = r then some s.heap.next
                  else (s.bags (requestBag r)).data x
          datat := fun x => if x = r then some now
                   else (s.bags (requestBag r)).datat x }
        else s.bags j
      heap :=
      { next := s.heap.next + 1
        tbl := fun m => if m = s.heap.next
               then (fun k2 => if k2 = k then some v else none)
               else s.heap.tbl m } }
  | some id =>
    { s with heap :=
      { next := s.heap.next
        tbl := fun m => if m = id
               then (fun k2 => if k2 = k then some v else s.heap.tbl id k2)
               else s.heap.tbl m } }

/-- go: func Get — the value stored under key for r, or nil when the
 request has no table or the key is absent. -/
def Get (s : State) (r : Req) (k : Key) : W :=
  match (s.bags (requestBag r)).data r with
  | some id => (s.heap.tbl id k).getD none
  | none => none

/-- go: func GetOk — the stored value and presence, like the two-valued
 form of a Go map access. -/
def GetOk (s : State) (r : Req) (k : Key) : W × Bool :=
  match (s.bags (requestBag r)).data r with
  | some id =>
    match s.heap.tbl id k with
    | some w => (w, true)
    | none => (none, false)
  | none => (none, false)

/-- go: func GetAll — a freshly allocated shallow copy of the table for a
 registered request (the new state carries the allocation, the second
 component is the identity of the copy); the nil map (`none`) for an
 unregistered one, with no allocation. -/
def GetAll (s : State) (r : Req) : State × Option Nat :=
  match (s.bags (requestBag r)).data r with
  | some id =>
    ({ s with heap :=
       { next := s.heap.next + 1
         tbl := fun m => if m = s.heap.next then s.heap.tbl id
                else s.heap.tbl m } },
     some s.heap.next)
  | none => (s, none)

/-- go: func GetAllOk — always allocates a result map, copies the
 table of the request into it when one exists (ranging over a nil map copies
 nothing), and reports whether the request was registered. -/
def GetAllOk (s : State) (r : Req) : State × Nat × Bool :=
  ({ s with heap :=
     { next := s.heap.next + 1
       tbl := fun m => if m = s.heap.next then
              (match (s.bags (requestBag r)).data r with
               | some id => s.heap.tbl id
               | none => emptyTable)
              else s.heap.tbl m } },
   s.heap.next,
   ((s.bags (requestBag r)).data r).isSome)

/-- go: func Delete — removes key from the table of the request when the table
 exists; otherwise the state is untouched. -/
def Delete (s : State) (r : Req) (k : Key) : State :=
  match (s.bags (requestBag r)).data r with
  | some id =>
    { s with heap :=
      { next := s.heap.next
        tbl := fun m => if m = id
               then (fun k2 => if k2 = k then none else s.heap.tbl id k2)
               else s.heap.tbl m } }
  | none => s

/-- go: func clear — deletes both the `data` and the `datat` entry of the
 request from its bag (the table itself becomes garbage in the heap). -/
def clear (s : State) (r : Req) : State :=
  { s with bags := fun j => if j = requestBag r then
      { data := fun x => if x = r then none
                else (s.bags (requestBag r)).data x
        datat := fun x => if x = r then none
                 else (s.bags (requestBag r)).datat x }
      else s.bags j }

/-- go: func Clear — clear under the shard lock. -/
def Clear (s : State) (r : Req) : State := clear s r

/-- go: func ClearHandler — wraps a handler; the deferred Clear runs after
 the inner handler finishes, on the normal path and on the panic path
 alike, and the outcome (`true` = panicked) propagates.  The handler is
 any function from the request and the current state to a final state and
 an outcome. -/
def ClearHandler (h : Req → State → State × Bool) (r : Req) (s : State) :
    State × Bool :=
  (Clear (h r s).1 r, (h r s).2)

/-- A caller mutating a map it holds: stores w under key k in the map at
 identity m (go: result[k] = w on a returned map). -/
def mutateMap (s : State) (m : Nat) (k : Key) (w : W) : State :=
  { s with heap :=
    { next := s.heap.next
      tbl := fun n => if n = m
             then (fun k2 => if k2 = k then some w else s.heap.tbl m k2)
             else s.heap.tbl n } }

/-- One API call, for reasoning about reachable states. -/
inductive Op where
  | set (r : Req) (k : Key) (v : W) (now : Int)
  | get (r : Req) (k : Key)
  | getOk (r : Req) (k : Key)
  | getAll (r : Req)
  | getAllOk (r : Req)
  | del (r : Req) (k : Key)
  | clear (r : Req)

/-- The state after one API call (queries return values but also extend
 the heap when they allocate a result map). -/
def step (s : State) : Op → State
  | .set r k v now => Set s r k v now
  | .get _ _ => s
  | .getOk _ _ => s
  | .getAll r => (GetAll s r).1
  | .getAllOk r => (GetAllOk s r).1
  | .del r k => Delete s r k
  | .clear r => Clear s r

/-- The state after a sequence of API calls. -/
def exec (tr : List Op) (s : State) : State := tr.foldl step s

/-- Does this call store something for request r?  True exactly for
 Set calls on r. -/
def Op.isSetFor : Op → Req → Bool
  | .set x _ _ _, r => x = r
  | _, _ => false

/-- How one call changes whether request r is registered: a Set for r
 registers it, a Clear for r unregisters it, everything else leaves it
 alone. -/
def liveStep (r : Req) (b : Bool) : Op → Bool
  | Op.set x _ _ _ => if x = r then true else b
  | Op.clear x => if x = r then false else b
  | _ => b

/-- Whether a trace leaves request r registered, starting from the empty
 store. -/
def liveSet (r : Req) (tr : List Op) : Bool :=
  tr.foldl (liveStep r) false

/-- Delete never touches the bags (it only mutates the heap table). -/
lemma Delete_bags (s : State) (r : Req) (k : Key) :
    (Delete s r k).bags = s.bags := by
  unfold Delete
  cases (s.bags (requestBag r)).data r <;> rfl

/-- Delete never changes the allocation counter. -/
lemma Delete_next (s : State) (r : Req) (k : Key) :
    (Delete s r k).heap.next = s.heap.next := by
  unfold Delete
  cases (s.bags (requestBag r)).data r <;> rfl

/-- GetAll never touches the bags. -/
lemma GetAll_bags (s : State) (r : Req) :
    (GetAll s r).1.bags = s.bags := by
  unfold GetAll
  cases (s.bags (requestBag r)).data r <;> rfl

/-- GetAllOk never touches the bags. -/
lemma GetAllOk_bags (s : State) (r : Req) :
    (GetAllOk s r).1.bags = s.bags := rfl

/-- The two per-shard tables agree on which requests are present. -/
def consistentAt (s : State) : Prop :=
  ∀ i x, ((s.bags i).data x).isSome = ((s.bags i).datat x).isSome

lemma consistentAt_init : consistentAt initState := fun _ _ => rfl

lemma consistentAt_step (s : State) (op : Op) (h : consistentAt s) :
    consistentAt (step s op) := by
  cases op with
  | set r k v now =>
    intro i x
    simp only [step, Set]
    cases hd : (s.bags (requestBag r)).data r with
    | none =>
      by_cases hi : i = requestBag r
      · subst hi
        by_cases hx : x = r <;> simp [hx, h _ _]
      · simp [hi, h _ _]
    | some id => exact h i x
  | get r k => exact h
  | getOk r k => exact h
  | getAll r =>
    intro i x
    rw [show (step s (Op.getAll r)).bags = s.bags from GetAll_bags s r]
    exact h i x
  | getAllOk r => exact h
  | del r k =>
    intro i x
    rw [show (step s (Op.del r k)).bags = s.bags from Delete_bags s r k]
    exact h i x
  | clear r =>
    intro i x
    simp only [step, Clear, clear]
    by_cases hi : i = requestBag r
    · subst hi
      by_cases hx : x = r <;> simp [hx, h _ _]
    · simp [hi, h _ _]

lemma consistentAt_exec (tr : List Op) (s : State) (h : consistentAt s) :
    consistentAt (exec tr s) := by
  induction tr generalizing s with
  | nil => exact h
  | cons op tl ih =>
    simpa [exec] using ih (step s op) (consistentAt_step s op h)

/-- Every map identity recorded in a bag has really been allocated. -/
def wfIds (s : State) : Prop :=
  ∀ i x id, (s.bags i).data x = some id → id < s.heap.next

lemma wfIds_init : wfIds initState := by
  intro i x id hd
  simp [initState] at hd

lemma wfIds_step (s : State) (op : Op) (h : wfIds s) : wfIds (step s op) := by
  cases op with
  | set r k v now =>
    intro i x id hd
    simp only [step] at hd ⊢
    cases hds : (s.bags (requestBag r)).data r with
    | none =>
      simp only [Set, hds] at hd ⊢
      by_cases hi : i = requestBag r
      · simp only [hi, if_pos rfl] at hd
        by_cases hx : x = r
        · simp [hx] at hd
          omega
        · simp [hx] at hd
          exact Nat.lt_succ_of_lt (h _ _ _ hd)
      · simp only [if_neg hi] at hd
        exact Nat.lt_succ_of_lt (h _ _ _ hd)
    | some id2 =>
      simp only [Set, hds] at hd ⊢
      exact h _ _ _ hd
  | get r k => exact h
  | getOk r k => exact h
  | getAll r =>
    intro i x id hd
    simp only [step] at hd ⊢
    rw [GetAll_bags] at hd
    have hlt := h _ _ _ hd
    cases hds : (s.bags (requestBag r)).data r with
    | none => simpa [GetAll, hds] using hlt
    | some id2 =>
      simp only [GetAll, hds]
      exact Nat.lt_succ_of_lt hlt
  | getAllOk r =>
    intro i x id hd
    exact Nat.lt_succ_of_lt (h _ _ _ hd)
  | del r k =>
    intro i x id hd
    simp only [step] at hd ⊢
    rw [Delete_bags] at hd
    rw [Delete_next]
    exact h _ _ _ hd
  | clear r =>
    intro i x id hd
    simp only [step, Clear, clear] at hd
    by_cases hi : i = requestBag r
    · simp only [hi, if_pos rfl] at hd
      by_cases hx : x = r
      · simp [hx] at hd
      · simp [hx] at hd
        exact h _ _ _ hd
    · simp only [if_neg hi] at hd
      exact h _ _ _ hd

lemma wfIds_exec (tr : List Op) (s : State) (h : wfIds s) : wfIds (exec tr s) := by
  induction tr generalizing s with
  | nil => exact h
  | cons op tl ih =>
    simpa [exec] using ih (step s op) (wfIds_step s op h)

/-- Set for another request never changes the data entry of this request. -/
lemma Set_data_other (s : State) (x r : Req) (k : Key) (v : W) (now : Int)
    (hx : ¬ x = r) :
    ((Set s x k v now).bags (requestBag r)).data r =
      (s.bags (requestBag r)).data r := by
  cases hds : (s.bags (requestBag x)).data x with
  | none =>
    simp only [Set, hds]
    by_cases hb : requestBag r = requestBag x
    · have hrx : ¬ r = x := fun he => hx he.symm
      simp [hb, hrx]
    · simp [hb]
  | some id => simp [Set, hds]

/-- Clear removes the data entry of this request from its bag. -/
lemma Clear_data_self (s : State) (r : Req) :
    ((Clear s r).bags (requestBag r)).data r = none := by
  simp [Clear, clear]

/-- Clear removes the datat entry of this request from its bag. -/
lemma Clear_datat_self (s : State) (r : Req) :
    ((Clear s r).bags (requestBag r)).datat r = none := by
  simp [Clear, clear]

/-- Clear for another request never changes the data entry of this request. -/
lemma Clear_data_other (s : State) (x r : Req) (hx : ¬ x = r) :
    ((Clear s x).bags (requestBag r)).data r =
      (s.bags (requestBag r)).data r := by
  simp only [Clear, clear]
  by_cases hb : requestBag r = requestBag x
  · have hrx : ¬ r = x := fun he => hx he.symm
    simp [hb, hrx]
  · simp [hb]

/-- No call other than a Set for r can register r. -/
lemma step_data_none (s : State) (op : Op) (r : Req)
    (h0 : (s.bags (requestBag r)).data r = none)
    (hop : op.isSetFor r = false) :
    ((step s op).bags (requestBag r)).data r = none := by
  cases op with
  | set x k v now =>
    have hx : ¬ x = r := by simpa [Op.isSetFor] using hop
    simp only [step]
    rw [Set_data_other s x r k v now hx]
    exact h0
  | get x k => exact h0
  | getOk x k => exact h0
  | getAll x =>
    simp only [step]
    rw [GetAll_bags]
    exact h0
  | getAllOk x => exact h0
  | del x k =>
    simp only [step]
    rw [Delete_bags]
    exact h0
  | clear x =>
    simp only [step]
    by_cases hx : x = r
    · subst hx
      exact Clear_data_self s x
    · rw [Clear_data_other s x r hx]
      exact h0

/-- A trace with no Set for r leaves r unregistered. -/
lemma data_none_of_noSet (tr : List Op) (s : State) (r : Req)
    (h0 : (s.bags (requestBag r)).data r = none)
    (h : ∀ op ∈ tr, op.isSetFor r = false) :
    ((exec tr s).bags (requestBag r)).data r = none := by
  induction tr generalizing s with
  | nil => exact h0
  | cons op tl ih =>
    have h1 := step_data_none s op r h0 (h op (List.mem_cons_self _ _))
    have h2 : ∀ op2 ∈ tl, op2.isSetFor r = false :=
      fun op2 hm => h op2 (List.mem_cons_of_mem _ hm)
    simpa [exec] using ih (step s op) h1 h2

/-- One call changes whether r is registered exactly as liveStep says. -/
lemma registered_liveStep (s : State) (op : Op) (r : Req) :
    (((step s op).bags (requestBag r)).data r).isSome =
      liveStep r (((s.bags (requestBag r)).data r).isSome) op := by
  cases op with
  | set x k v now =>
    simp only [step, liveStep]
    by_cases hx : x = r
    · subst hx
      simp only [if_pos rfl]
      cases hds : (s.bags (requestBag x)).data x with
      | none => simp [Set, hds]
      | some id => simp [Set, hds]
    · rw [Set_data_other s x r k v now hx]
      simp [hx]
  | get x k => rfl
  | getOk x k => rfl
  | getAll x =>
    simp only [step, liveStep]
    rw [GetAll_bags]
  | getAllOk x => rfl
  | del x k =>
    simp only [step, liveStep]
    rw [Delete_bags]
  | clear x =>
    simp only [step, liveStep]
    by_cases hx : x = r
    · subst hx
      simp [Clear_data_self s x]
    · rw [Clear_data_other s x r hx]
      simp [hx]

/-- Over a whole trace, registration of r is the fold of liveStep. -/
lemma registered_exec (tr : List Op) (s : State) (r : Req) :
    (((exec tr s).bags (requestBag r)).data r).isSome =
      tr.foldl (liveStep r) (((s.bags (requestBag r)).data r).isSome) := by
  induction tr generalizing s with
  | nil => rfl
  | cons op tl ih =>
    simp only [exec, List.foldl_cons]
    have h1 := ih (step s op)
    simp only [exec] at h1
    rw [h1, registered_liveStep s op r]

/-- Claim C9: the shard selector is a deterministic, stateless function of
 the request identity alone: it returns the shard at index (address of r)
 modulo N, its result is always a valid shard index, and N is the fixed
 constant 128. -/
theorem requestBag_deterministic (r : Req) :
    requestBag r = r % 128 ∧ requestBag r < numberOfBags ∧ numberOfBags = 128 := by
  refine ⟨rfl, ?_, rfl⟩
  exact Nat.mod_lt _ (by decide)

/-- Claim C1: immediately after Set(r, k, v) — from any prior state,
 including one where k was already set for r — GetOk(r, k) returns
 (v, true), and GetAllOk(r) reports the request registered with the
 returned mapping binding k to v (last write wins). -/
theorem set_then_get (s : State) (r : Req) (k : Key) (v : W) (now : Int) :
    GetOk (Set s r k v now) r k = (v, true) ∧
    (GetAllOk (Set s r k v now) r).2.2 = true ∧
    (GetAllOk (Set s r k v now) r).1.heap.tbl
      (GetAllOk (Set s r k v now) r).2.1 k = some v := by
  cases hd : (s.bags (requestBag r)).data r with
  | none => refine ⟨?_, ?_, ?_⟩ <;> simp [Set, GetOk, GetAllOk, hd]
  | some id => refine ⟨?_, ?_, ?_⟩ <;> simp [Set, GetOk, GetAllOk, hd]

/-- Claim C2: for a request on which no Set was ever performed, GetAllOk
 returns a fresh empty mapping and false, GetOk returns (nil, false) for
 any key, and Get returns nil. -/
theorem unregistered_queries (tr : List Op) (r : Req) (k : Key)
    (h : ∀ op ∈ tr, op.isSetFor r = false) :
    (GetAllOk (exec tr initState) r).2.2 = false ∧
    (GetAllOk (exec tr initState) r).1.heap.tbl
      (GetAllOk (exec tr initState) r).2.1 = emptyTable ∧
    GetOk (exec tr initState) r k = (none, false) ∧
    Get (exec tr initState) r k = none := by
  have hd : ((exec tr initState).bags (requestBag r)).data r = none :=
    data_none_of_noSet tr initState r rfl h
  refine ⟨?_, ?_, ?_, ?_⟩ <;> simp [GetAllOk, GetOk, Get, hd]

/-- Witness for C2: a trace that only touches another request leaves
 request 0 looking unregistered. -/
theorem unregistered_queries_witness :
    GetOk (exec [Op.set 1 2 (some 3) 4] initState) 0 5 = (none, false) ∧
    Get (exec [Op.set 1 2 (some 3) 4] initState) 0 5 = none :=
  ⟨(unregistered_queries [Op.set 1 2 (some 3) 4] 0 5 (by decide)).2.2.1,
   (unregistered_queries [Op.set 1 2 (some 3) 4] 0 5 (by decide)).2.2.2⟩

/-- Claim C6: in every reachable state, the two tables of each shard are
 consistent — a request is present in the creation-timestamp table datat
 exactly when it is present in the attribute-table mapping data. -/
theorem data_datat_agree (tr : List Op) (i : Nat) (x : Req) :
    (((exec tr initState).bags i).data x).isSome =
      (((exec tr initState).bags i).datat x).isSome :=
  consistentAt_exec tr initState consistentAt_init i x

/-- Claim C8: the wrapped handler produced by ClearHandler runs Clear
 after the inner handler on every exit path, so afterwards GetAllOk on
 the request reports an empty mapping and false, even when the inner
 handler panicked; the inner outcome itself propagates unchanged. -/
theorem clearHandler_clears (h : Req → State → State × Bool) (r : Req)
    (s : State) :
    (GetAllOk (ClearHandler h r s).1 r).2.2 = false ∧
    (GetAllOk (ClearHandler h r s).1 r).1.heap.tbl
      (GetAllOk (ClearHandler h r s).1 r).2.1 = emptyTable ∧
    (ClearHandler h r s).2 = (h r s).2 := by
  have hda : (((Clear (h r s).1 r).bags (requestBag r)).data r) = none :=
    Clear_data_self (h r s).1 r
  refine ⟨?_, ?_, rfl⟩ <;> simp [ClearHandler, GetAllOk, hda]

/-- Claim C3: after Clear(r) from any state, GetAllOk(r) returns an empty
 mapping and false; Clear removes both the data entry and the datat entry
 for r; and on a request that is unregistered in a reachable state, Clear
 leaves the whole store unchanged. -/
theorem clear_clears (s : State) (r : Req) (tr : List Op) :
    ((GetAllOk (Clear s r) r).2.2 = false ∧
     (GetAllOk (Clear s r) r).1.heap.tbl
       (GetAllOk (Clear s r) r).2.1 = emptyTable) ∧
    ((Clear s r).bags (requestBag r)).data r = none ∧
    ((Clear s r).bags (requestBag r)).datat r = none ∧
    (exec tr initState = s → (s.bags (requestBag r)).data r = none →
      Clear s r = s) := by
  have hda := Clear_data_self s r
  refine ⟨⟨by simp [GetAllOk, hda], by simp [GetAllOk, hda]⟩,
    hda, Clear_datat_self s r, ?_⟩
  intro htr hdn
  have hc : consistentAt s := htr ▸ consistentAt_exec tr initState consistentAt_init
  have hdt : (s.bags (requestBag r)).datat r = none := by
    have h2 := hc (requestBag r) r
    rw [hdn] at h2
    cases hdt2 : (s.bags (requestBag r)).datat r with
    | none => rfl
    | some t => rw [hdt2] at h2; simp at h2
  refine State.ext ?_ rfl
  simp only [Clear, clear]
  funext j
  by_cases hj : j = requestBag r
  · subst hj
    rw [if_pos rfl]
    refine databag.ext ?_ ?_
    · funext x
      by_cases hx : x = r
      · simp [hx, hdn]
      · simp [hx]
    · funext x
      by_cases hx : x = r
      · simp [hx, hdt]
      · simp [hx]
  · rw [if_neg hj]

/-- Witness for C3: clearing the never-registered request 0 in the empty
 store leaves the store unchanged. -/
theorem clear_clears_witness : Clear initState 0 = initState :=
  (clear_clears initState 0 []).2.2.2 rfl rfl

/-- Claim C5: Delete(r, k) after Set(r, k, v) makes GetOk(r, k) return
 (nil, false); Delete on an unregistered request, or on a key absent from
 the table of the request, leaves the store state unchanged. -/
theorem delete_removes (s : State) (r : Req) (k : Key) (v : W) (now : Int)
    (id : Nat) :
    GetOk (Delete (Set s r k v now) r k) r k = (none, false) ∧
    ((s.bags (requestBag r)).data r = none → Delete s r k = s) ∧
    ((s.bags (requestBag r)).data r = some id → s.heap.tbl id k = none →
      Delete s r k = s) := by
  refine ⟨?_, ?_, ?_⟩
  · cases hd : (s.bags (requestBag r)).data r with
    | none => simp [Set, Delete, GetOk, hd]
    | some id2 => simp [Set, Delete, GetOk, hd]
  · intro hd
    simp only [Delete, hd]
  · intro hd htbl
    simp only [Delete, hd]
    refine State.ext rfl ?_
    refine Heap.ext rfl ?_
    funext m
    by_cases hm : m = id
    · subst hm
      funext k2
      by_cases hk : k2 = k
      · simp [hk, htbl]
      · simp [hk]
    · simp [hm]

/-- Witness for C5: deleting the only key makes it absent, deleting on the
 empty store is a no-op, and deleting an absent key is a no-op. -/
theorem delete_removes_witness :
    GetOk (Delete (Set initState 0 0 (some 5) 0) 0 0) 0 0 = (none, false) ∧
    Delete initState 0 0 = initState ∧
    Delete (Set initState 0 0 (some 5) 0) 0 1 = Set initState 0 0 (some 5) 0 :=
  ⟨(delete_removes initState 0 0 (some 5) 0 0).1,
   (delete_removes initState 0 0 (some 5) 0 0).2.1 rfl,
   (delete_removes (Set initState 0 0 (some 5) 0) 0 1 (some 5) 0 0).2.2 rfl rfl⟩

/-- Claim C10: for an unregistered request, GetAll returns the nil map and
 allocates nothing (the state is unchanged), while GetAllOk returns a
 freshly allocated empty map (the old allocation counter, which the call
 then advances) together with false. -/
theorem getAll_getAllOk_unregistered (s : State) (r : Req)
    (hd : (s.bags (requestBag r)).data r = none) :
    GetAll s r = (s, none) ∧
    (GetAllOk s r).2 = (s.heap.next, false) ∧
    (GetAllOk s r).1.heap.tbl s.heap.next = emptyTable ∧
    (GetAllOk s r).1.heap.next = s.heap.next + 1 := by
  refine ⟨by simp [GetAll, hd], by simp [GetAllOk, hd], by simp [GetAllOk, hd], rfl⟩

/-- Witness for C10: in the empty store, GetAll of request 0 is the nil
 map with no state change, and GetAllOk allocates map 0 and reports
 false. -/
theorem getAll_getAllOk_unregistered_witness :
    GetAll initState 0 = (initState, none) ∧
    (GetAllOk initState 0).2 = (0, false) :=
  ⟨(getAll_getAllOk_unregistered initState 0 rfl).1,
   (getAll_getAllOk_unregistered initState 0 rfl).2.1⟩

/-- Counterexample to claim C4: after Set(0, 0, v) then Delete(0, 0) the
 request is still registered (GetAllOk reports true) although its
 attribute table is empty. -/
theorem registered_empty_reachable :
    (GetAllOk (exec [Op.set 0 0 (some 5) 0, Op.del 0 0] initState) 0).2.2 =
      true ∧
    (GetAllOk (exec [Op.set 0 0 (some 5) 0, Op.del 0 0] initState) 0).1.heap.tbl
      (GetAllOk (exec [Op.set 0 0 (some 5) 0, Op.del 0 0] initState) 0).2.1 =
      emptyTable := by
  refine ⟨rfl, ?_⟩
  funext k2
  by_cases hk : k2 = 0
  · simp [exec, step, Set, Delete, GetAllOk, initState, requestBag,
      numberOfBags, emptyTable, hk]
  · simp [exec, step, Set, Delete, GetAllOk, initState, requestBag,
      numberOfBags, emptyTable, hk]

/-- Amended claim C4: in every reachable state, a request is registered
 (GetAllOk reports true) exactly when some Set for it occurred with no
 later Clear for it — Delete never unregisters a request, so a registered
 request with an empty attribute table is reachable. -/
theorem registration_iff_liveSet (tr : List Op) (r : Req) :
    (GetAllOk (exec tr initState) r).2.2 = liveSet r tr := by
  have h := registered_exec tr initState r
  simpa [GetAllOk, liveSet, initState] using h

/-- Claim C7: for a registered request in a reachable state, GetAll
 returns a freshly allocated copy of the table: writing into the returned
 map afterwards changes no subsequent Get on the request, and a
 subsequent Set on the request leaves the contents of the returned map
 untouched. -/
theorem getAll_snapshot (tr : List Op) (r : Req) (id : Nat)
    (hreg : ((exec tr initState).bags (requestBag r)).data r = some id) :
    (GetAll (exec tr initState) r).2 = some (exec tr initState).heap.next ∧
    (∀ k w k2,
      Get (mutateMap (GetAll (exec tr initState) r).1
            (exec tr initState).heap.next k w) r k2 =
        Get (GetAll (exec tr initState) r).1 r k2) ∧
    (∀ k v now k2,
      (Set (GetAll (exec tr initState) r).1 r k v now).heap.tbl
          (exec tr initState).heap.next k2 =
        (GetAll (exec tr initState) r).1.heap.tbl
          (exec tr initState).heap.next k2) := by
  have hid : id < (exec tr initState).heap.next :=
    wfIds_exec tr initState wfIds_init (requestBag r) r id hreg
  have hne : ¬ id = (exec tr initState).heap.next := Nat.ne_of_lt hid
  have hne2 : ¬ (exec tr initState).heap.next = id := fun he => hne he.symm
  refine ⟨by simp [GetAll, hreg], ?_, ?_⟩
  · intro k w k2
    simp [GetAll, hreg, Get, mutateMap, hne, hne2]
  · intro k v now k2
    simp [GetAll, hreg, Set, hne, hne2]

/-- Witness for C7: after one Set, mutating the snapshot returned by
 GetAll does not change what Get sees for the request. -/
theorem getAll_snapshot_witness :
    Get (mutateMap (GetAll (exec [Op.set 0 0 (some 1) 0] initState) 0).1
          (exec [Op.set 0 0 (some 1) 0] initState).heap.next 0 (some 9)) 0 0 =
      Get (GetAll (exec [Op.set 0 0 (some 1) 0] initState) 0).1 0 0 :=
  ((getAll_snapshot [Op.set 0 0 (some 1) 0] 0 0 rfl).2.1) 0 (some 9) 0

end Context
